import Mathlib

/-!
Shallow embedding of the availability-statistics engine of monitrix: the
`calculateStats` function of the API server (the all-fail variant), together
with the data types it consumes and produces.

Modelling conventions:
* Go `time.Time` values are modelled as integer numbers of seconds (`Int`);
  `t2.Sub(t1).Seconds()` truncated to `int64` is then exactly `t2 - t1`.
* The wall clock read by `time.Since` in the ongoing-downtime branch is passed
  as an explicit `now : Int` argument.
* Go `float64` arithmetic (uptime percentage, downtime hours) is modelled by
  exact rationals.
* The Go `for`/`range` loop with mutable locals becomes a left fold of a step
  function over an explicit state record.
-/

/-- Go struct `monitor.PingResult`: the outcome of one probe of one host.
`calculateStats` reads only `Host` and `Success`; the other fields are carried
so that dependence can be stated. -/
structure PingResult where
  Host : String
  Success : Bool
  Latency : Int
  Error : String
  Timestamp : Int
  deriving Repr, DecidableEq

/-- Go struct `storage.LogEntry`: one sampling round, a timestamp plus the
probe results of that round. -/
structure LogEntry where
  Timestamp : Int
  Results : List PingResult
  deriving Repr, DecidableEq

/-- Go struct `api.DowntimeEvent`: a period of connectivity loss.
`EndTime = none` encodes the `nil` pointer of an ongoing event. -/
structure DowntimeEvent where
  StartTime : Int
  EndTime : Option Int
  Duration : Int
  IsOngoing : Bool
  FailedHosts : List String
  deriving Repr, DecidableEq

/-- Go struct `api.Stats`: the aggregated summary returned to the caller. -/
structure Stats where
  CurrentStatus : String
  TotalChecks : Nat
  OnlineChecks : Nat
  OfflineChecks : Nat
  UptimePercentage : Rat
  TotalDowntimeHours : Rat
  DowntimeEvents : List DowntimeEvent
  RecentDowntime : Option DowntimeEvent
  TimeSinceLastCheck : Option Int
  deriving Repr, DecidableEq

/-- The per-round classification loop of `calculateStats`: scan the results,
starting from `allFailed = true`; a successful probe clears `allFailed`, a
failing probe appends its host to `failedHosts`. Returns
`(allFailed, failedHosts)`. -/
def classifyResults (results : List PingResult) : Bool × List String :=
  results.foldl
    (fun acc result =>
      if result.Success then (false, acc.2) else (acc.1, acc.2 ++ [result.Host]))
    (true, [])

/-- The `internetOnline` flag of a round: the negation of `allFailed`. -/
def roundOnline (entry : LogEntry) : Bool :=
  !(classifyResults entry.Results).1

/-- The `failedHosts` list collected for a round, in input order. -/
def roundFailedHosts (entry : LogEntry) : List String :=
  (classifyResults entry.Results).2

/-- The mutable locals of `calculateStats` that live across loop iterations. -/
structure LoopState where
  downtimeEvents : List DowntimeEvent
  onlineChecks : Nat
  offlineChecks : Nat
  totalDowntimeSeconds : Int
  lastStatus : Bool
  downtimeStart : Int
  downtimeFailedHosts : List String
  lastCheckTime : Option Int
  currentStatus : String
  statusInitialized : Bool
  deriving Repr, DecidableEq

/-- Zero values of the locals before the loop: Go booleans start `false`,
slices `nil`, and `currentStatus` is initialized to `"online"`. -/
def initState : LoopState where
  downtimeEvents := []
  onlineChecks := 0
  offlineChecks := 0
  totalDowntimeSeconds := 0
  lastStatus := false
  downtimeStart := 0
  downtimeFailedHosts := []
  lastCheckTime := none
  currentStatus := "online"
  statusInitialized := false

/-- One iteration of the loop body of `calculateStats` on `entry`. -/
def stepEntry (st0 : LoopState) (entry : LogEntry) : LoopState :=
  let allFailed := (classifyResults entry.Results).1
  let failedHosts := (classifyResults entry.Results).2
  let internetOnline := !allFailed
  let st1 := { st0 with lastCheckTime := some entry.Timestamp }
  let st2 :=
    if internetOnline then
      let stOn := { st1 with onlineChecks := st1.onlineChecks + 1 }
      let stClosed :=
        if stOn.statusInitialized && !stOn.lastStatus then
          let endTime := entry.Timestamp
          let duration := endTime - stOn.downtimeStart
          { stOn with
              totalDowntimeSeconds := stOn.totalDowntimeSeconds + duration
              downtimeEvents := stOn.downtimeEvents ++
                [{ StartTime := stOn.downtimeStart
                   EndTime := some endTime
                   Duration := duration
                   IsOngoing := false
                   FailedHosts := stOn.downtimeFailedHosts }] }
        else stOn
      { stClosed with lastStatus := true, currentStatus := "online" }
    else
      let stOff := { st1 with offlineChecks := st1.offlineChecks + 1 }
      let stOpened :=
        if !stOff.statusInitialized || stOff.lastStatus then
          { stOff with
              downtimeStart := entry.Timestamp
              downtimeFailedHosts := failedHosts }
        else stOff
      { stOpened with lastStatus := false, currentStatus := "offline" }
  { st2 with statusInitialized := true }

/-- The whole loop of `calculateStats` over the log entries. -/
def runLoop (logs : List LogEntry) : LoopState :=
  logs.foldl stepEntry initState

/-- One iteration of the in-place reversal loop: swap positions `i` and `j`
of the list (identity when either index is out of range; in the loop both are
always in range). -/
def swapAt (l : List α) (i j : Nat) : List α :=
  match l[i]?, l[j]? with
  | some a, some b => (l.set i b).set j a
  | _, _ => l

/-- The final "most recent first" loop of `calculateStats`: for
`i = 0, …, n/2 - 1` swap elements `i` and `n - 1 - i` (the length is
invariant across iterations). -/
def reverseLoop (l : List α) : List α :=
  (List.range (l.length / 2)).foldl (fun acc i => swapAt acc i (l.length - 1 - i)) l

/-- The function `api.calculateStats`: fold the loop over the entries, synthesize the
ongoing event when the final status is offline, compute the totals, reverse
the event list in place, and assemble the `Stats` record. -/
def calculateStats (logs : List LogEntry) (now : Int) : Stats :=
  let st := runLoop logs
  let final :=
    if st.statusInitialized && !st.lastStatus && st.lastCheckTime.isSome then
      let duration := now - st.downtimeStart
      (st.downtimeEvents ++
        [{ StartTime := st.downtimeStart
           EndTime := none
           Duration := duration
           IsOngoing := true
           FailedHosts := st.downtimeFailedHosts }],
       st.totalDowntimeSeconds + duration)
    else
      (st.downtimeEvents, st.totalDowntimeSeconds)
  let totalChecks := logs.length
  let uptimePercentage : Rat :=
    if 0 < totalChecks then (st.onlineChecks : Rat) / (totalChecks : Rat) * 100 else 0
  let sorted := reverseLoop final.1
  { CurrentStatus := st.currentStatus
    TotalChecks := totalChecks
    OnlineChecks := st.onlineChecks
    OfflineChecks := st.offlineChecks
    UptimePercentage := uptimePercentage
    TotalDowntimeHours := (final.2 : Rat) / 3600
    DowntimeEvents := sorted
    RecentDowntime := sorted.head?
    TimeSinceLastCheck := st.lastCheckTime }

/-- Invariant tying the accumulated event list to the loop state: events are
in ascending start-time order, all starts are bounded by the last processed
timestamp, an open interval starts no earlier than any recorded event and no
later than the last processed timestamp, and no events exist before the first
entry. -/
def OrderInv (st : LoopState) : Prop :=
  st.downtimeEvents.Pairwise (fun a b => a.StartTime ≤ b.StartTime) ∧
  (∀ ev ∈ st.downtimeEvents, ∀ t, st.lastCheckTime = some t → ev.StartTime ≤ t) ∧
  (st.statusInitialized = true → st.lastStatus = false →
     (∀ ev ∈ st.downtimeEvents, ev.StartTime ≤ st.downtimeStart) ∧
     (∀ t, st.lastCheckTime = some t → st.downtimeStart ≤ t)) ∧
  (st.lastCheckTime = none → st.downtimeEvents = []) ∧
  (st.statusInitialized = true → (st.lastCheckTime).isSome = true)

/-- Two probe results that agree on everything except `Latency` and
`Error`. -/
def ResultObs (r1 r2 : PingResult) : Prop :=
  r1.Host = r2.Host ∧ r1.Success = r2.Success ∧ r1.Timestamp = r2.Timestamp

/-- Two log entries that agree on their timestamp and, pairwise, on
everything except the `Latency` and `Error` of their results. -/
def EntryObs (e1 e2 : LogEntry) : Prop :=
  e1.Timestamp = e2.Timestamp ∧ List.Forall₂ ResultObs e1.Results e2.Results

/-- Sample round at time `t` with one successful probe, for concrete
instantiations. -/
def upEntry (t : Int) : LogEntry where
  Timestamp := t
  Results := [{ Host := "a", Success := true, Latency := 5, Error := "",
                Timestamp := t }]

/-- Sample round at time `t` with one failing probe, for concrete
instantiations. -/
def downEntry (t : Int) : LogEntry where
  Timestamp := t
  Results := [{ Host := "a", Success := false, Latency := 7, Error := "timeout",
                Timestamp := t }]

/-- Sample round at time `t` with two failing probes, for concrete
instantiations. -/
def downEntryAB (t : Int) : LogEntry where
  Timestamp := t
  Results := [{ Host := "a", Success := false, Latency := 3, Error := "x",
                Timestamp := t },
              { Host := "b", Success := false, Latency := 4, Error := "y",
                Timestamp := t }]

/-- Sample round at time `t` that differs from `downEntry t` only in the
`Latency` and `Error` fields of its single result. -/
def downEntryAlt (t : Int) : LogEntry where
  Timestamp := t
  Results := [{ Host := "a", Success := false, Latency := 99, Error := "dns error",
                Timestamp := t }]

/-- Sample degenerate round at time `t` with no probe results. -/
def emptyEntry (t : Int) : LogEntry where
  Timestamp := t
  Results := []

example : reverseLoop [1, 2, 3, 4, 5] = [5, 4, 3, 2, 1] := by decide

example : roundOnline { Timestamp := 0, Results := [] } = false := by decide

example :
    (calculateStats
      [{ Timestamp := 0,
         Results := [{ Host := "a", Success := true, Latency := 1, Error := "", Timestamp := 0 }] },
       { Timestamp := 10,
         Results := [{ Host := "a", Success := false, Latency := 1, Error := "x", Timestamp := 10 }] },
       { Timestamp := 20,
         Results := [{ Host := "a", Success := true, Latency := 1, Error := "", Timestamp := 20 }] }]
      100).DowntimeEvents =
    [{ StartTime := 10, EndTime := some 20, Duration := 10, IsOngoing := false,
       FailedHosts := ["a"] }] := by decide

/-! ### Characterization of the per-round classification -/

theorem classifyResults_go (rs : List PingResult) (b : Bool) (hs : List String) :
    rs.foldl
      (fun acc result =>
        if result.Success then (false, acc.2) else (acc.1, acc.2 ++ [result.Host]))
      (b, hs) =
    (b && rs.all (fun r => !r.Success),
     hs ++ (rs.filter (fun r => !r.Success)).map PingResult.Host) := by
  induction rs generalizing b hs with
  | nil => simp
  | cons r rs ih =>
    cases hSucc : r.Success <;> simp [hSucc, ih]

theorem classifyResults_fst (rs : List PingResult) :
    (classifyResults rs).1 = rs.all (fun r => !r.Success) := by
  simp [classifyResults, classifyResults_go]

theorem classifyResults_snd (rs : List PingResult) :
    (classifyResults rs).2 = (rs.filter (fun r => !r.Success)).map PingResult.Host := by
  simp [classifyResults, classifyResults_go]

theorem roundOnline_eq_any (e : LogEntry) :
    roundOnline e = e.Results.any (fun r => r.Success) := by
  simp [roundOnline, classifyResults_fst, List.all_eq_not_any_not]

theorem roundFailedHosts_eq (e : LogEntry) :
    roundFailedHosts e = (e.Results.filter (fun r => !r.Success)).map PingResult.Host := by
  simp [roundFailedHosts, classifyResults_snd]

/-! ### The in-place reversal loop is list reversal -/

theorem swapAt_eq_of_lt (l : List α) (i j : Nat) (hi : i < l.length) (hj : j < l.length) :
    swapAt l i j = (l.set i l[j]).set j l[i] := by
  unfold swapAt
  rw [List.getElem?_eq_getElem hi, List.getElem?_eq_getElem hj]

theorem swapAt_length_of_lt (l : List α) (i j : Nat) (hi : i < l.length)
    (hj : j < l.length) : (swapAt l i j).length = l.length := by
  rw [swapAt_eq_of_lt l i j hi hj]
  simp

theorem getElem?_swapAt (l : List α) (i j : Nat) (hi : i < l.length) (hj : j < l.length)
    (k : Nat) :
    (swapAt l i j)[k]? =
      if k = j then l[i]? else if k = i then l[j]? else l[k]? := by
  rw [swapAt_eq_of_lt l i j hi hj]
  by_cases hkj : k = j
  · subst hkj
    rw [if_pos rfl, List.getElem?_set_eq_of_lt]
    · rw [List.getElem?_eq_getElem hi]
    · simpa using hj
  · rw [if_neg hkj, List.getElem?_set_ne (fun h => hkj h.symm)]
    by_cases hki : k = i
    · subst hki
      rw [if_pos rfl, List.getElem?_set_eq_of_lt _ hi, List.getElem?_eq_getElem hj]
    · rw [if_neg hki, List.getElem?_set_ne (fun h => hki h.symm)]

theorem reverseLoop_go (l : List α) (m : Nat) (hm : m ≤ l.length / 2) :
    ((List.range m).foldl (fun acc i => swapAt acc i (l.length - 1 - i)) l).length =
      l.length ∧
    ∀ k, ((List.range m).foldl (fun acc i => swapAt acc i (l.length - 1 - i)) l)[k]? =
      if k < m ∨ (l.length - m ≤ k ∧ k < l.length) then l[l.length - 1 - k]?
      else l[k]? := by
  induction m with
  | zero =>
    refine ⟨rfl, fun k => ?_⟩
    rw [List.range_zero, List.foldl_nil, if_neg (by omega)]
  | succ m ih =>
    obtain ⟨hlen, hget⟩ := ih (Nat.le_of_succ_le hm)
    have hmn : 2 * (m + 1) ≤ l.length := by omega
    have hm1 : m < ((List.range m).foldl
        (fun acc i => swapAt acc i (l.length - 1 - i)) l).length := by omega
    have hm2 : l.length - 1 - m < ((List.range m).foldl
        (fun acc i => swapAt acc i (l.length - 1 - i)) l).length := by omega
    rw [List.range_succ, List.foldl_append, List.foldl_cons, List.foldl_nil]
    refine ⟨by rw [swapAt_length_of_lt _ _ _ hm1 hm2, hlen], fun k => ?_⟩
    rw [getElem?_swapAt _ _ _ hm1 hm2 k]
    by_cases hkj : k = l.length - 1 - m
    · subst hkj
      rw [if_pos rfl, hget m, if_neg (by omega), if_pos (by omega)]
      have hidx : l.length - 1 - (l.length - 1 - m) = m := by omega
      rw [hidx]
    · rw [if_neg hkj]
      by_cases hki : k = m
      · subst hki
        rw [if_pos rfl, hget (l.length - 1 - k), if_neg (by omega), if_pos (by omega)]
      · rw [if_neg hki, hget k]
        by_cases hc : k < m ∨ (l.length - m ≤ k ∧ k < l.length)
        · rw [if_pos hc, if_pos (by omega)]
        · rw [if_neg hc, if_neg (by omega)]

theorem reverseLoop_eq_reverse (l : List α) : reverseLoop l = l.reverse := by
  obtain ⟨hlen, hget⟩ := reverseLoop_go l (l.length / 2) le_rfl
  apply List.ext_getElem?
  intro k
  rw [show reverseLoop l = (List.range (l.length / 2)).foldl
        (fun acc i => swapAt acc i (l.length - 1 - i)) l from rfl,
      hget k]
  by_cases hk : k < l.length
  · rw [List.getElem?_reverse hk]
    by_cases hc : k < l.length / 2 ∨ (l.length - l.length / 2 ≤ k ∧ k < l.length)
    · rw [if_pos hc]
    · rw [if_neg hc]
      have hkk : l.length - 1 - k = k := by omega
      rw [hkk]
  · rw [if_neg (by omega), List.getElem?_eq_none (by omega),
        List.getElem?_eq_none (by simp; omega)]

/-! ### Per-field behavior of one loop iteration -/

theorem stepEntry_lastCheckTime (st : LoopState) (e : LogEntry) :
    (stepEntry st e).lastCheckTime = some e.Timestamp := by
  simp only [stepEntry]
  split_ifs <;> rfl

theorem stepEntry_statusInitialized (st : LoopState) (e : LogEntry) :
    (stepEntry st e).statusInitialized = true := rfl

theorem stepEntry_lastStatus (st : LoopState) (e : LogEntry) :
    (stepEntry st e).lastStatus = roundOnline e := by
  simp only [stepEntry, roundOnline]
  split_ifs with h <;> simp_all

theorem stepEntry_currentStatus (st : LoopState) (e : LogEntry) :
    (stepEntry st e).currentStatus = if roundOnline e then "online" else "offline" := by
  simp only [stepEntry, roundOnline]
  split_ifs with h <;> simp_all

theorem stepEntry_onlineChecks (st : LoopState) (e : LogEntry) :
    (stepEntry st e).onlineChecks =
      st.onlineChecks + (if roundOnline e then 1 else 0) := by
  simp only [stepEntry, roundOnline]
  split_ifs with h <;> simp_all

theorem stepEntry_offlineChecks (st : LoopState) (e : LogEntry) :
    (stepEntry st e).offlineChecks =
      st.offlineChecks + (if roundOnline e then 0 else 1) := by
  simp only [stepEntry, roundOnline]
  split_ifs with h <;> simp_all

theorem stepEntry_downtimeEvents (st : LoopState) (e : LogEntry) :
    (stepEntry st e).downtimeEvents =
      st.downtimeEvents ++
        (if roundOnline e = true ∧ st.statusInitialized = true ∧ st.lastStatus = false then
          [{ StartTime := st.downtimeStart
             EndTime := some e.Timestamp
             Duration := e.Timestamp - st.downtimeStart
             IsOngoing := false
             FailedHosts := st.downtimeFailedHosts }]
         else []) := by
  simp only [stepEntry, roundOnline]
  split_ifs with h h2 h3 <;> simp_all

theorem stepEntry_downtimeStart (st : LoopState) (e : LogEntry) :
    (stepEntry st e).downtimeStart =
      if roundOnline e = false ∧ (st.statusInitialized = false ∨ st.lastStatus = true) then
        e.Timestamp
      else st.downtimeStart := by
  simp only [stepEntry, roundOnline]
  split_ifs with h h2 h3 <;> simp_all

theorem stepEntry_downtimeFailedHosts (st : LoopState) (e : LogEntry) :
    (stepEntry st e).downtimeFailedHosts =
      if roundOnline e = false ∧ (st.statusInitialized = false ∨ st.lastStatus = true) then
        roundFailedHosts e
      else st.downtimeFailedHosts := by
  simp only [stepEntry, roundOnline, roundFailedHosts]
  split_ifs with h h2 h3 <;> simp_all

theorem stepEntry_totalDowntimeSeconds (st : LoopState) (e : LogEntry) :
    (stepEntry st e).totalDowntimeSeconds =
      st.totalDowntimeSeconds +
        (if roundOnline e = true ∧ st.statusInitialized = true ∧ st.lastStatus = false then
          e.Timestamp - st.downtimeStart
         else 0) := by
  simp only [stepEntry, roundOnline]
  split_ifs with h h2 h3 <;> simp_all

/-! ### Behavior of the whole loop -/

theorem runLoop_concat (logs : List LogEntry) (e : LogEntry) :
    runLoop (logs ++ [e]) = stepEntry (runLoop logs) e := by
  rw [runLoop, List.foldl_append, List.foldl_cons, List.foldl_nil]
  rfl

theorem foldl_counts (logs : List LogEntry) (st : LoopState) :
    (logs.foldl stepEntry st).onlineChecks + (logs.foldl stepEntry st).offlineChecks =
      st.onlineChecks + st.offlineChecks + logs.length := by
  induction logs using List.reverseRecOn with
  | nil => rfl
  | append_singleton xs e ih =>
    rw [List.foldl_append, List.foldl_cons, List.foldl_nil,
        stepEntry_onlineChecks, stepEntry_offlineChecks, List.length_append,
        List.length_singleton]
    by_cases h : roundOnline e = true
    · rw [if_pos h, if_pos h]
      omega
    · rw [if_neg h, if_neg h]
      omega

theorem foldl_lastCheckTime_isSome (logs : List LogEntry) (st : LoopState)
    (h : logs ≠ []) :
    ((logs.foldl stepEntry st).lastCheckTime).isSome = true := by
  induction logs using List.reverseRecOn with
  | nil => exact absurd rfl h
  | append_singleton xs e ih =>
    rw [List.foldl_append, List.foldl_cons, List.foldl_nil, stepEntry_lastCheckTime]
    rfl

theorem foldl_events_closed (logs : List LogEntry) (st : LoopState)
    (h : ∀ ev ∈ st.downtimeEvents, ev.IsOngoing = false) :
    ∀ ev ∈ (logs.foldl stepEntry st).downtimeEvents, ev.IsOngoing = false := by
  induction logs using List.reverseRecOn with
  | nil => exact h
  | append_singleton xs e ih =>
    rw [List.foldl_append, List.foldl_cons, List.foldl_nil]
    intro ev hev
    rw [stepEntry_downtimeEvents] at hev
    rcases List.mem_append.mp hev with h1 | h2
    · exact ih ev h1
    · split_ifs at h2 with hc
      · rw [List.mem_singleton] at h2
        rw [h2]
      · exact absurd h2 (List.not_mem_nil ev)

theorem foldl_online_run (logs : List LogEntry) (st : LoopState)
    (hlogs : ∀ e ∈ logs, roundOnline e = true)
    (hst : st.statusInitialized = false ∨ st.lastStatus = true) :
    (logs.foldl stepEntry st).downtimeEvents = st.downtimeEvents ∧
    ((logs.foldl stepEntry st).statusInitialized = false ∨
      (logs.foldl stepEntry st).lastStatus = true) ∧
    (logs.foldl stepEntry st).onlineChecks = st.onlineChecks + logs.length ∧
    (logs.foldl stepEntry st).offlineChecks = st.offlineChecks := by
  induction logs generalizing st with
  | nil => exact ⟨rfl, hst, rfl, rfl⟩
  | cons e rest ih =>
    have he : roundOnline e = true := hlogs e (List.mem_cons_self _ _)
    have hrest : ∀ x ∈ rest, roundOnline x = true :=
      fun x hx => hlogs x (List.mem_cons_of_mem _ hx)
    have hstep : (stepEntry st e).statusInitialized = false ∨
        (stepEntry st e).lastStatus = true := by
      right
      rw [stepEntry_lastStatus, he]
    obtain ⟨h1, h2, h3, h4⟩ := ih (stepEntry st e) hrest hstep
    refine ⟨?_, by rw [List.foldl_cons]; exact h2, ?_, ?_⟩
    · rw [List.foldl_cons, h1, stepEntry_downtimeEvents]
      rcases hst with h | h <;> simp [h]
    · rw [List.foldl_cons, h3, stepEntry_onlineChecks, if_pos he, List.length_cons]
      omega
    · rw [List.foldl_cons, h4, stepEntry_offlineChecks, he]
      rfl

theorem foldl_offline_run (logs : List LogEntry) (st : LoopState)
    (hlogs : ∀ e ∈ logs, roundOnline e = false)
    (hinit : st.statusInitialized = true) (hlast : st.lastStatus = false) :
    (logs.foldl stepEntry st).statusInitialized = true ∧
    (logs.foldl stepEntry st).lastStatus = false ∧
    (logs.foldl stepEntry st).downtimeStart = st.downtimeStart ∧
    (logs.foldl stepEntry st).downtimeFailedHosts = st.downtimeFailedHosts ∧
    (logs.foldl stepEntry st).downtimeEvents = st.downtimeEvents ∧
    (logs.foldl stepEntry st).onlineChecks = st.onlineChecks ∧
    (logs.foldl stepEntry st).offlineChecks = st.offlineChecks + logs.length := by
  induction logs generalizing st with
  | nil => exact ⟨hinit, hlast, rfl, rfl, rfl, rfl, rfl⟩
  | cons e rest ih =>
    have he : roundOnline e = false := hlogs e (List.mem_cons_self _ _)
    have hrest : ∀ x ∈ rest, roundOnline x = false :=
      fun x hx => hlogs x (List.mem_cons_of_mem _ hx)
    have hi : (stepEntry st e).statusInitialized = true := stepEntry_statusInitialized st e
    have hl : (stepEntry st e).lastStatus = false := by rw [stepEntry_lastStatus, he]
    obtain ⟨a1, a2, a3, a4, a5, a6, a7⟩ := ih (stepEntry st e) hrest hi hl
    have hnc : ¬(roundOnline e = false ∧
        (st.statusInitialized = false ∨ st.lastStatus = true)) := by
      rw [hinit, hlast]
      simp
    refine ⟨by rw [List.foldl_cons]; exact a1, by rw [List.foldl_cons]; exact a2,
      ?_, ?_, ?_, ?_, ?_⟩
    · rw [List.foldl_cons, a3, stepEntry_downtimeStart, if_neg hnc]
    · rw [List.foldl_cons, a4, stepEntry_downtimeFailedHosts, if_neg hnc]
    · rw [List.foldl_cons, a5, stepEntry_downtimeEvents]
      simp [he]
    · rw [List.foldl_cons, a6, stepEntry_onlineChecks, he]
      rfl
    · have hne : ¬(roundOnline e = true) := by
        rw [he]
        exact Bool.false_ne_true
      rw [List.foldl_cons, a7, stepEntry_offlineChecks, if_neg hne, List.length_cons]
      omega

theorem runLoop_opening_state (pre : List LogEntry)
    (hpre : pre = [] ∨ ∃ p e, pre = p ++ [e] ∧ roundOnline e = true) :
    (runLoop pre).statusInitialized = false ∨ (runLoop pre).lastStatus = true := by
  rcases hpre with h | ⟨p, e, rfl, he⟩
  · left
    rw [h]
    rfl
  · right
    rw [runLoop, List.foldl_append, List.foldl_cons, List.foldl_nil,
        stepEntry_lastStatus, he]

theorem runLoop_offline_run (pre : List LogEntry) (e0 : LogEntry) (suf : List LogEntry)
    (hpre : pre = [] ∨ ∃ p e, pre = p ++ [e] ∧ roundOnline e = true)
    (h0 : roundOnline e0 = false)
    (hsuf : ∀ e ∈ suf, roundOnline e = false) :
    (runLoop (pre ++ e0 :: suf)).statusInitialized = true ∧
    (runLoop (pre ++ e0 :: suf)).lastStatus = false ∧
    (runLoop (pre ++ e0 :: suf)).downtimeStart = e0.Timestamp ∧
    (runLoop (pre ++ e0 :: suf)).downtimeFailedHosts = roundFailedHosts e0 ∧
    (runLoop (pre ++ e0 :: suf)).downtimeEvents = (runLoop pre).downtimeEvents ∧
    (runLoop (pre ++ e0 :: suf)).onlineChecks = (runLoop pre).onlineChecks ∧
    (runLoop (pre ++ e0 :: suf)).offlineChecks =
      (runLoop pre).offlineChecks + (suf.length + 1) := by
  have hopen := runLoop_opening_state pre hpre
  have key : runLoop (pre ++ e0 :: suf) =
      suf.foldl stepEntry (stepEntry (runLoop pre) e0) := by
    rw [runLoop, List.foldl_append, List.foldl_cons]
    rfl
  have h1i : (stepEntry (runLoop pre) e0).statusInitialized = true :=
    stepEntry_statusInitialized _ e0
  have h1l : (stepEntry (runLoop pre) e0).lastStatus = false := by
    rw [stepEntry_lastStatus, h0]
  have h1s : (stepEntry (runLoop pre) e0).downtimeStart = e0.Timestamp := by
    rw [stepEntry_downtimeStart, if_pos ⟨h0, hopen⟩]
  have h1f : (stepEntry (runLoop pre) e0).downtimeFailedHosts = roundFailedHosts e0 := by
    rw [stepEntry_downtimeFailedHosts, if_pos ⟨h0, hopen⟩]
  have h1e : (stepEntry (runLoop pre) e0).downtimeEvents =
      (runLoop pre).downtimeEvents := by
    rw [stepEntry_downtimeEvents]
    simp [h0]
  have h1on : (stepEntry (runLoop pre) e0).onlineChecks = (runLoop pre).onlineChecks := by
    rw [stepEntry_onlineChecks, h0]
    rfl
  have h1off : (stepEntry (runLoop pre) e0).offlineChecks =
      (runLoop pre).offlineChecks + 1 := by
    rw [stepEntry_offlineChecks, h0]
    rfl
  obtain ⟨b1, b2, b3, b4, b5, b6, b7⟩ :=
    foldl_offline_run suf (stepEntry (runLoop pre) e0) hsuf h1i h1l
  rw [key]
  refine ⟨b1, b2, by rw [b3, h1s], by rw [b4, h1f], by rw [b5, h1e],
    by rw [b6, h1on], by rw [b7, h1off]; omega⟩

/-! ### Projections of the assembled summary -/

theorem calculateStats_events (logs : List LogEntry) (now : Int) :
    (calculateStats logs now).DowntimeEvents =
      reverseLoop ((runLoop logs).downtimeEvents ++
        (if ((runLoop logs).statusInitialized && !(runLoop logs).lastStatus
              && ((runLoop logs).lastCheckTime).isSome) = true then
          [{ StartTime := (runLoop logs).downtimeStart
             EndTime := none
             Duration := now - (runLoop logs).downtimeStart
             IsOngoing := true
             FailedHosts := (runLoop logs).downtimeFailedHosts }]
         else [])) := by
  simp only [calculateStats]
  split_ifs with h
  · rfl
  · simp

theorem calculateStats_RecentDowntime (logs : List LogEntry) (now : Int) :
    (calculateStats logs now).RecentDowntime =
      ((calculateStats logs now).DowntimeEvents).head? := rfl

theorem calculateStats_CurrentStatus (logs : List LogEntry) (now : Int) :
    (calculateStats logs now).CurrentStatus = (runLoop logs).currentStatus := rfl

theorem calculateStats_TotalChecks (logs : List LogEntry) (now : Int) :
    (calculateStats logs now).TotalChecks = logs.length := rfl

theorem calculateStats_OnlineChecks (logs : List LogEntry) (now : Int) :
    (calculateStats logs now).OnlineChecks = (runLoop logs).onlineChecks := rfl

theorem calculateStats_OfflineChecks (logs : List LogEntry) (now : Int) :
    (calculateStats logs now).OfflineChecks = (runLoop logs).offlineChecks := rfl

theorem calculateStats_UptimePercentage (logs : List LogEntry) (now : Int) :
    (calculateStats logs now).UptimePercentage =
      if 0 < logs.length then
        ((runLoop logs).onlineChecks : Rat) / (logs.length : Rat) * 100
      else 0 := rfl

/-! ### Ordering invariant of the loop state -/

theorem orderInv_initState : OrderInv initState := by
  refine ⟨List.Pairwise.nil, ?_, ?_, ?_, ?_⟩ <;> simp [initState]

theorem orderInv_step (st : LoopState) (e : LogEntry) (hinv : OrderInv st)
    (hord : ∀ t, st.lastCheckTime = some t → t ≤ e.Timestamp) :
    OrderInv (stepEntry st e) := by
  obtain ⟨p1, p2, p3, p4, p5⟩ := hinv
  have hbound : ∀ ev ∈ st.downtimeEvents, ev.StartTime ≤ e.Timestamp := by
    intro ev hm
    cases hc : st.lastCheckTime with
    | none =>
      rw [p4 hc] at hm
      cases hm
    | some t => exact le_trans (p2 ev hm t hc) (hord t hc)
  have hdsbound : st.statusInitialized = true → st.lastStatus = false →
      st.downtimeStart ≤ e.Timestamp := by
    intro hi hl
    have h5 := p5 hi
    cases hc : st.lastCheckTime with
    | none =>
      rw [hc] at h5
      cases h5
    | some t => exact le_trans ((p3 hi hl).2 t hc) (hord t hc)
  refine ⟨?_, ?_, ?_, ?_, ?_⟩
  · rw [stepEntry_downtimeEvents]
    by_cases hc : roundOnline e = true ∧ st.statusInitialized = true ∧
        st.lastStatus = false
    · rw [if_pos hc]
      refine List.pairwise_append.mpr ⟨p1, List.pairwise_singleton _ _, ?_⟩
      intro a ha b hb
      rw [List.mem_singleton] at hb
      rw [hb]
      exact (p3 hc.2.1 hc.2.2).1 a ha
    · rw [if_neg hc, List.append_nil]
      exact p1
  · intro ev hm t ht
    rw [stepEntry_lastCheckTime] at ht
    injection ht with ht
    subst ht
    rw [stepEntry_downtimeEvents] at hm
    rcases List.mem_append.mp hm with h1 | h2
    · exact hbound ev h1
    · split_ifs at h2 with hc
      · rw [List.mem_singleton] at h2
        rw [h2]
        exact hdsbound hc.2.1 hc.2.2
      · exact absurd h2 (List.not_mem_nil ev)
  · intro _ hl
    have honl : roundOnline e = false := by
      rw [← stepEntry_lastStatus st e, hl]
    have hnapp : ¬(roundOnline e = true ∧ st.statusInitialized = true ∧
        st.lastStatus = false) := by
      intro hcc
      rw [honl] at hcc
      exact Bool.false_ne_true hcc.1
    constructor
    · intro ev hm
      rw [stepEntry_downtimeEvents, if_neg hnapp, List.append_nil] at hm
      rw [stepEntry_downtimeStart]
      by_cases hc : roundOnline e = false ∧
          (st.statusInitialized = false ∨ st.lastStatus = true)
      · rw [if_pos hc]
        exact hbound ev hm
      · rw [if_neg hc]
        have hi : st.statusInitialized = true := by
          cases hsi : st.statusInitialized with
          | false => exact absurd ⟨honl, Or.inl hsi⟩ hc
          | true => rfl
        have hls : st.lastStatus = false := by
          cases hls : st.lastStatus with
          | false => rfl
          | true => exact absurd ⟨honl, Or.inr hls⟩ hc
        exact (p3 hi hls).1 ev hm
    · intro t ht
      rw [stepEntry_lastCheckTime] at ht
      injection ht with ht
      subst ht
      rw [stepEntry_downtimeStart]
      by_cases hc : roundOnline e = false ∧
          (st.statusInitialized = false ∨ st.lastStatus = true)
      · rw [if_pos hc]
      · rw [if_neg hc]
        have hi : st.statusInitialized = true := by
          cases hsi : st.statusInitialized with
          | false => exact absurd ⟨honl, Or.inl hsi⟩ hc
          | true => rfl
        have hls : st.lastStatus = false := by
          cases hls : st.lastStatus with
          | false => rfl
          | true => exact absurd ⟨honl, Or.inr hls⟩ hc
        exact hdsbound hi hls
  · intro h
    rw [stepEntry_lastCheckTime] at h
    cases h
  · intro _
    rw [stepEntry_lastCheckTime]
    rfl

theorem foldl_orderInv : ∀ (logs : List LogEntry) (st : LoopState),
    List.Chain' (fun a b => a.Timestamp ≤ b.Timestamp) logs →
    (∀ t, st.lastCheckTime = some t → ∀ e ∈ logs.head?, t ≤ e.Timestamp) →
    OrderInv st → OrderInv (logs.foldl stepEntry st) := by
  intro logs
  induction logs with
  | nil => exact fun st _ _ hinv => hinv
  | cons e rest ih =>
    intro st hsorted hconn hinv
    rw [List.foldl_cons]
    have hce := List.chain'_cons'.mp hsorted
    refine ih (stepEntry st e) hce.2 ?_ ?_
    · intro t ht f hf
      rw [stepEntry_lastCheckTime] at ht
      injection ht with ht
      subst ht
      exact hce.1 f hf
    · refine orderInv_step st e hinv ?_
      intro t ht
      exact hconn t ht e rfl

/-! ### Observational equivalence (noninterference) -/

theorem classifyResults_obs {rs1 rs2 : List PingResult}
    (h : List.Forall₂ ResultObs rs1 rs2) :
    classifyResults rs1 = classifyResults rs2 := by
  have key : ∀ {l1 l2 : List PingResult}, List.Forall₂ ResultObs l1 l2 →
      ∀ acc : Bool × List String,
      l1.foldl
        (fun acc result =>
          if result.Success then (false, acc.2) else (acc.1, acc.2 ++ [result.Host]))
        acc =
      l2.foldl
        (fun acc result =>
          if result.Success then (false, acc.2) else (acc.1, acc.2 ++ [result.Host]))
        acc := by
    intro l1 l2 hf
    induction hf with
    | nil => exact fun _ => rfl
    | cons hr _ ih =>
      intro acc
      rw [List.foldl_cons, List.foldl_cons]
      obtain ⟨hh, hs, _⟩ := hr
      rw [hh, hs]
      exact ih _
  exact key h _

theorem stepEntry_obs (st : LoopState) {e1 e2 : LogEntry} (h : EntryObs e1 e2) :
    stepEntry st e1 = stepEntry st e2 := by
  obtain ⟨ht, hr⟩ := h
  have hc : classifyResults e1.Results = classifyResults e2.Results :=
    classifyResults_obs hr
  simp only [stepEntry, hc, ht]

theorem foldl_obs {l1 l2 : List LogEntry} (h : List.Forall₂ EntryObs l1 l2) :
    ∀ st : LoopState, l1.foldl stepEntry st = l2.foldl stepEntry st := by
  induction h with
  | nil => exact fun _ => rfl
  | cons he _ ih =>
    intro st
    rw [List.foldl_cons, List.foldl_cons, stepEntry_obs st he]
    exact ih _

/-! ### The claims -/

/-- C1. For every Round with at least one ProbeResult, the verdict is online
iff at least one result succeeded; if all results fail the Round is offline
and `failedHosts` is exactly the hosts of the failing results in input
order. -/
theorem claim_C1 (entry : LogEntry) (_h : entry.Results ≠ []) :
    (roundOnline entry = true ↔ ∃ r ∈ entry.Results, r.Success = true) ∧
    ((∀ r ∈ entry.Results, r.Success = false) →
      roundOnline entry = false ∧
      roundFailedHosts entry = entry.Results.map PingResult.Host) := by
  constructor
  · rw [roundOnline_eq_any]
    exact List.any_eq_true
  · intro hall
    constructor
    · rw [roundOnline_eq_any, List.any_eq_false]
      intro r hr
      rw [hall r hr]
      exact Bool.false_ne_true
    · rw [roundFailedHosts_eq]
      have hfil : entry.Results.filter (fun r => !r.Success) = entry.Results := by
        rw [List.filter_eq_self]
        intro r hr
        rw [hall r hr]
        rfl
      rw [hfil]

theorem claim_C1_witness :
    (downEntryAB 0).Results ≠ [] ∧
    (roundOnline (downEntryAB 0) = false ∧
     roundFailedHosts (downEntryAB 0) = ["a", "b"]) :=
  ⟨by decide,
   by
    have hmap := (claim_C1 (downEntryAB 0) (by decide)).2 (by decide)
    exact ⟨hmap.1, by rw [hmap.2]; decide⟩⟩

/-- C2 counterexample. A Round with zero ProbeResults is not skipped by the
code: on the single degenerate round the summary counts one total check and
one offline check, reports status offline, and opens an ongoing downtime
event. -/
theorem claim_C2_counterexample :
    (calculateStats [emptyEntry 0] 5).TotalChecks = 1 ∧
    (calculateStats [emptyEntry 0] 5).OfflineChecks = 1 ∧
    (calculateStats [emptyEntry 0] 5).CurrentStatus = "offline" ∧
    (calculateStats [emptyEntry 0] 5).DowntimeEvents =
      [{ StartTime := 0, EndTime := none, Duration := 5, IsOngoing := true,
         FailedHosts := [] }] := by decide

/-- C2 (amended). A Round with zero ProbeResults is classified as all-failed:
it is counted in totalChecks and offlineChecks (never onlineChecks), sets
currentStatus to offline, and opens or extends a downtime interval, so the
event list is nonempty. -/
theorem claim_C2 (logs : List LogEntry) (e : LogEntry) (he : e.Results = [])
    (now : Int) :
    roundOnline e = false ∧
    (calculateStats (logs ++ [e]) now).TotalChecks = logs.length + 1 ∧
    (calculateStats (logs ++ [e]) now).OfflineChecks =
      (runLoop logs).offlineChecks + 1 ∧
    (calculateStats (logs ++ [e]) now).OnlineChecks = (runLoop logs).onlineChecks ∧
    (calculateStats (logs ++ [e]) now).CurrentStatus = "offline" ∧
    (calculateStats (logs ++ [e]) now).DowntimeEvents ≠ [] := by
  have honl : roundOnline e = false := by
    rw [roundOnline_eq_any, he]
    rfl
  have hnonl : ¬(roundOnline e = true) := by
    rw [honl]
    exact Bool.false_ne_true
  refine ⟨honl, ?_, ?_, ?_, ?_, ?_⟩
  · rw [calculateStats_TotalChecks, List.length_append, List.length_singleton]
  · rw [calculateStats_OfflineChecks, runLoop_concat, stepEntry_offlineChecks,
        if_neg hnonl]
  · rw [calculateStats_OnlineChecks, runLoop_concat, stepEntry_onlineChecks,
        if_neg hnonl]
    exact Nat.add_zero _
  · rw [calculateStats_CurrentStatus, runLoop_concat, stepEntry_currentStatus,
        if_neg hnonl]
  · have hcond : ((runLoop (logs ++ [e])).statusInitialized &&
        !(runLoop (logs ++ [e])).lastStatus &&
        ((runLoop (logs ++ [e])).lastCheckTime).isSome) = true := by
      rw [runLoop_concat, stepEntry_statusInitialized, stepEntry_lastStatus, honl,
          stepEntry_lastCheckTime]
      rfl
    rw [calculateStats_events, if_pos hcond, reverseLoop_eq_reverse]
    intro hcontra
    rw [List.reverse_append, List.reverse_singleton] at hcontra
    cases hcontra

theorem claim_C2_witness :
    (emptyEntry 0).Results = [] ∧
    (calculateStats ([] ++ [emptyEntry 0]) 5).CurrentStatus = "offline" :=
  ⟨rfl, (claim_C2 [] (emptyEntry 0) rfl 5).2.2.2.2.1⟩

/-- C6. On the empty Round sequence the summary has zero checks, zero uptime
percentage, status online, no downtime events, and no recent downtime. -/
theorem claim_C6 (now : Int) :
    (calculateStats [] now).TotalChecks = 0 ∧
    (calculateStats [] now).UptimePercentage = 0 ∧
    (calculateStats [] now).CurrentStatus = "online" ∧
    (calculateStats [] now).DowntimeEvents = [] ∧
    (calculateStats [] now).RecentDowntime = none := by
  have hev : (calculateStats [] now).DowntimeEvents = [] := by
    rw [calculateStats_events, if_neg (by decide), List.append_nil]
    decide
  refine ⟨rfl, rfl, rfl, hev, ?_⟩
  rw [calculateStats_RecentDowntime, hev]
  rfl

/-- C7. The uptime percentage is `onlineChecks / totalChecks * 100` when
there are checks, `0` otherwise, and lies in `[0, 100]` on any nonempty
input. -/
theorem claim_C7 (logs : List LogEntry) (now : Int) :
    ((calculateStats logs now).TotalChecks = 0 →
      (calculateStats logs now).UptimePercentage = 0) ∧
    (0 < (calculateStats logs now).TotalChecks →
      (calculateStats logs now).UptimePercentage =
        ((calculateStats logs now).OnlineChecks : Rat) /
          ((calculateStats logs now).TotalChecks : Rat) * 100) ∧
    (logs ≠ [] →
      0 ≤ (calculateStats logs now).UptimePercentage ∧
      (calculateStats logs now).UptimePercentage ≤ 100) := by
  rw [calculateStats_UptimePercentage, calculateStats_TotalChecks,
      calculateStats_OnlineChecks]
  refine ⟨?_, ?_, ?_⟩
  · intro h0
    rw [if_neg (by omega)]
  · intro hpos
    rw [if_pos hpos]
  · intro hne
    have hpos : 0 < logs.length := List.length_pos.mpr hne
    rw [if_pos hpos]
    have hon_le : (runLoop logs).onlineChecks ≤ logs.length := by
      have hcount := foldl_counts logs initState
      have hsum : (runLoop logs).onlineChecks + (runLoop logs).offlineChecks =
          logs.length := by
        simpa [runLoop, initState] using hcount
      omega
    have hQpos : (0 : Rat) < (logs.length : Rat) := by exact_mod_cast hpos
    have hQle : ((runLoop logs).onlineChecks : Rat) ≤ (logs.length : Rat) := by
      exact_mod_cast hon_le
    constructor
    · positivity
    · have hdiv : ((runLoop logs).onlineChecks : Rat) / (logs.length : Rat) ≤ 1 :=
        (div_le_one hQpos).mpr hQle
      calc ((runLoop logs).onlineChecks : Rat) / (logs.length : Rat) * 100
          ≤ 1 * 100 := mul_le_mul_of_nonneg_right hdiv (by norm_num)
        _ = 100 := by norm_num

theorem claim_C7_witness :
    ([downEntry 0, upEntry 10] : List LogEntry) ≠ [] ∧
    0 ≤ (calculateStats [downEntry 0, upEntry 10] 20).UptimePercentage ∧
    (calculateStats [downEntry 0, upEntry 10] 20).UptimePercentage ≤ 100 :=
  ⟨by decide,
   ((claim_C7 [downEntry 0, upEntry 10] 20).2.2 (by decide)).1,
   ((claim_C7 [downEntry 0, upEntry 10] 20).2.2 (by decide)).2⟩

/-- C9. When every Round has at least one ProbeResult, the online and offline
counters partition the total count. -/
theorem claim_C9 (logs : List LogEntry) (now : Int)
    (_h : ∀ e ∈ logs, e.Results ≠ []) :
    (calculateStats logs now).OnlineChecks + (calculateStats logs now).OfflineChecks =
      (calculateStats logs now).TotalChecks := by
  rw [calculateStats_OnlineChecks, calculateStats_OfflineChecks,
      calculateStats_TotalChecks]
  have hcount := foldl_counts logs initState
  simpa [runLoop, initState] using hcount

theorem claim_C9_witness :
    (∀ e ∈ [upEntry 0, downEntry 10], e.Results ≠ []) ∧
    (calculateStats [upEntry 0, downEntry 10] 20).OnlineChecks +
        (calculateStats [upEntry 0, downEntry 10] 20).OfflineChecks =
      (calculateStats [upEntry 0, downEntry 10] 20).TotalChecks :=
  ⟨by decide, claim_C9 [upEntry 0, downEntry 10] 20 (by decide)⟩

/-- C10. The summary depends only on each entry's timestamp and each result's
`Host` and `Success`: inputs differing only in `Latency` and `Error` yield
identical Stats. -/
theorem claim_C10 (l1 l2 : List LogEntry) (now : Int)
    (h : List.Forall₂ EntryObs l1 l2) :
    calculateStats l1 now = calculateStats l2 now := by
  have hlen : l1.length = l2.length := h.length_eq
  have hrun : l1.foldl stepEntry initState = l2.foldl stepEntry initState :=
    foldl_obs h initState
  simp only [calculateStats, runLoop, hrun, hlen]

theorem claim_C10_witness :
    List.Forall₂ EntryObs [downEntry 0] [downEntryAlt 0] ∧
    calculateStats [downEntry 0] 7 = calculateStats [downEntryAlt 0] 7 := by
  have hf : List.Forall₂ EntryObs [downEntry 0] [downEntryAlt 0] :=
    List.Forall₂.cons ⟨rfl, List.Forall₂.cons ⟨rfl, rfl, rfl⟩ List.Forall₂.nil⟩
      List.Forall₂.nil
  exact ⟨hf, claim_C10 [downEntry 0] [downEntryAlt 0] 7 hf⟩

/-- C3. If the last processed Round is offline, the summary contains exactly
one ongoing event; it has no end time, starts at the first Round of the final
offline run, and its duration is `now` minus that start. -/
theorem claim_C3 (pre suf : List LogEntry) (e0 : LogEntry) (now : Int)
    (hpre : pre = [] ∨ ∃ p e, pre = p ++ [e] ∧ roundOnline e = true)
    (h0 : roundOnline e0 = false)
    (hsuf : ∀ e ∈ suf, roundOnline e = false) :
    ((calculateStats (pre ++ e0 :: suf) now).DowntimeEvents).filter
        (fun ev => ev.IsOngoing) =
      [{ StartTime := e0.Timestamp
         EndTime := none
         Duration := now - e0.Timestamp
         IsOngoing := true
         FailedHosts := roundFailedHosts e0 }] := by
  obtain ⟨b1, b2, b3, b4, b5, b6, b7⟩ := runLoop_offline_run pre e0 suf hpre h0 hsuf
  have hsome : ((runLoop (pre ++ e0 :: suf)).lastCheckTime).isSome = true :=
    foldl_lastCheckTime_isSome (pre ++ e0 :: suf) initState (by simp)
  have hcond : ((runLoop (pre ++ e0 :: suf)).statusInitialized &&
      !(runLoop (pre ++ e0 :: suf)).lastStatus &&
      ((runLoop (pre ++ e0 :: suf)).lastCheckTime).isSome) = true := by
    rw [b1, b2, hsome]
    rfl
  have hclosed : ∀ ev ∈ (runLoop (pre ++ e0 :: suf)).downtimeEvents,
      ev.IsOngoing = false :=
    foldl_events_closed (pre ++ e0 :: suf) initState
      (fun ev h => absurd h (List.not_mem_nil ev))
  have hfilnil : ((runLoop (pre ++ e0 :: suf)).downtimeEvents).filter
      (fun ev => ev.IsOngoing) = [] := by
    rw [List.filter_eq_nil_iff]
    intro ev hm
    rw [hclosed ev hm]
    exact Bool.false_ne_true
  rw [calculateStats_events, if_pos hcond, reverseLoop_eq_reverse, b3, b4,
      List.filter_reverse, List.filter_append, hfilnil, List.nil_append]
  rfl

theorem claim_C3_witness :
    roundOnline (downEntry 0) = false ∧
    ((calculateStats ([] ++ downEntry 0 :: [downEntryAB 10]) 100).DowntimeEvents).filter
        (fun ev => ev.IsOngoing) =
      [{ StartTime := 0, EndTime := none, Duration := 100, IsOngoing := true,
         FailedHosts := ["a"] }] := by
  have h := claim_C3 [] [downEntryAB 10] (downEntry 0) 100 (Or.inl rfl) (by decide)
    (by decide)
  exact ⟨by decide, by rw [h]; decide⟩

/-- C4. An Online→Offline→Online pattern yields exactly one closed event,
from the first offline Round's timestamp to the closing online Round's
timestamp, with matching duration. -/
theorem claim_C4 (pre mid : List LogEntry) (e0 eEnd : LogEntry) (now : Int)
    (hpre : ∀ e ∈ pre, roundOnline e = true)
    (h0 : roundOnline e0 = false)
    (hmid : ∀ e ∈ mid, roundOnline e = false)
    (hEnd : roundOnline eEnd = true) :
    (calculateStats (pre ++ e0 :: (mid ++ [eEnd])) now).DowntimeEvents =
      [{ StartTime := e0.Timestamp
         EndTime := some eEnd.Timestamp
         Duration := eEnd.Timestamp - e0.Timestamp
         IsOngoing := false
         FailedHosts := roundFailedHosts e0 }] := by
  have hpre' : pre = [] ∨ ∃ p e, pre = p ++ [e] ∧ roundOnline e = true := by
    rcases List.eq_nil_or_concat pre with h | ⟨p, b, hpb⟩
    · exact Or.inl h
    · rw [List.concat_eq_append] at hpb
      have hb : b ∈ pre := by
        rw [hpb]
        exact List.mem_append_right p (List.mem_singleton.mpr rfl)
      exact Or.inr ⟨p, b, hpb, hpre b hb⟩
  have hassoc : pre ++ e0 :: (mid ++ [eEnd]) = (pre ++ e0 :: mid) ++ [eEnd] := by
    simp
  obtain ⟨b1, b2, b3, b4, b5, b6, b7⟩ := runLoop_offline_run pre e0 mid hpre' h0 hmid
  obtain ⟨c1, c2, c3, c4⟩ := foldl_online_run pre initState hpre (Or.inl rfl)
  have hpre_ev : (runLoop pre).downtimeEvents = [] := c1.trans rfl
  rw [calculateStats_events, hassoc, runLoop_concat]
  have hclose_cond : ((stepEntry (runLoop (pre ++ e0 :: mid)) eEnd).statusInitialized &&
      !(stepEntry (runLoop (pre ++ e0 :: mid)) eEnd).lastStatus &&
      ((stepEntry (runLoop (pre ++ e0 :: mid)) eEnd).lastCheckTime).isSome) = false := by
    rw [stepEntry_lastStatus, hEnd]
    simp
  rw [if_neg (by rw [hclose_cond]; exact Bool.false_ne_true), List.append_nil,
      stepEntry_downtimeEvents, if_pos ⟨hEnd, b1, b2⟩, b5, hpre_ev, b3, b4,
      List.nil_append, reverseLoop_eq_reverse, List.reverse_singleton]

theorem claim_C4_witness :
    (calculateStats
      ([upEntry 0] ++ downEntryAB 10 :: ([downEntry 20] ++ [upEntry 30]))
      99).DowntimeEvents =
      [{ StartTime := 10, EndTime := some 30, Duration := 20, IsOngoing := false,
         FailedHosts := ["a", "b"] }] := by
  have h := claim_C4 [upEntry 0] [downEntry 20] (downEntryAB 10) (upEntry 30) 99
    (by decide) (by decide) (by decide) (by decide)
  rw [h]
  decide

/-- C5. On ascending-timestamp input the event list is ordered
most-recent-first, any ongoing event is its first element, and
`recentDowntime` is the first element of the list (or absent). -/
theorem claim_C5 (logs : List LogEntry) (now : Int)
    (hsorted : List.Chain' (fun a b => a.Timestamp ≤ b.Timestamp) logs) :
    ((calculateStats logs now).DowntimeEvents).Pairwise
      (fun a b => b.StartTime ≤ a.StartTime) ∧
    (∀ ev ∈ (calculateStats logs now).DowntimeEvents, ev.IsOngoing = true →
      ((calculateStats logs now).DowntimeEvents).head? = some ev) ∧
    (calculateStats logs now).RecentDowntime =
      ((calculateStats logs now).DowntimeEvents).head? := by
  have hinv : OrderInv (runLoop logs) := by
    refine foldl_orderInv logs initState hsorted ?_ orderInv_initState
    intro t ht
    rw [show initState.lastCheckTime = none from rfl] at ht
    cases ht
  obtain ⟨p1, p2, p3, p4, p5⟩ := hinv
  have hclosed : ∀ ev ∈ (runLoop logs).downtimeEvents, ev.IsOngoing = false :=
    foldl_events_closed logs initState (fun ev h => absurd h (List.not_mem_nil ev))
  refine ⟨?_, ?_, calculateStats_RecentDowntime logs now⟩ <;>
    rw [calculateStats_events, reverseLoop_eq_reverse]
  · by_cases hb : ((runLoop logs).statusInitialized && !(runLoop logs).lastStatus &&
        ((runLoop logs).lastCheckTime).isSome) = true
    · rw [if_pos hb]
      have hb' := hb
      simp only [Bool.and_eq_true, Bool.not_eq_true'] at hb'
      have ha := hb'.1.1
      have hlast := hb'.1.2
      rw [List.pairwise_reverse]
      refine List.pairwise_append.mpr ⟨p1, List.pairwise_singleton _ _, ?_⟩
      intro a ha' b hb'
      rw [List.mem_singleton] at hb'
      subst hb'
      exact (p3 ha hlast).1 a ha'
    · rw [if_neg hb, List.append_nil, List.pairwise_reverse]
      exact p1
  · by_cases hb : ((runLoop logs).statusInitialized && !(runLoop logs).lastStatus &&
        ((runLoop logs).lastCheckTime).isSome) = true
    · rw [if_pos hb]
      intro ev hm hev
      rw [List.mem_reverse] at hm
      rcases List.mem_append.mp hm with h1 | h2
      · rw [hclosed ev h1] at hev
        cases hev
      · rw [List.mem_singleton] at h2
        subst h2
        rw [List.reverse_append, List.reverse_singleton, List.singleton_append]
        rfl
    · rw [if_neg hb, List.append_nil]
      intro ev hm hev
      rw [List.mem_reverse] at hm
      rw [hclosed ev hm] at hev
      cases hev

theorem claim_C5_witness :
    List.Chain' (fun a b => a.Timestamp ≤ b.Timestamp)
      [downEntry 0, upEntry 10, downEntry 20] ∧
    (calculateStats [downEntry 0, upEntry 10, downEntry 20] 50).RecentDowntime =
      ((calculateStats [downEntry 0, upEntry 10, downEntry 20] 50).DowntimeEvents).head? := by
  have hch : List.Chain' (fun a b => a.Timestamp ≤ b.Timestamp)
      [downEntry 0, upEntry 10, downEntry 20] :=
    List.chain'_cons.mpr ⟨by decide,
      List.chain'_cons.mpr ⟨by decide, List.chain'_singleton _⟩⟩
  exact ⟨hch, (claim_C5 [downEntry 0, upEntry 10, downEntry 20] 50 hch).2.2⟩

/-- C8. During a run of consecutive offline Rounds, the open interval's
failed-host snapshot stays the one captured at the first offline Round, even
if later failing sets differ; both the ongoing event and a closing event
carry that snapshot. -/
theorem claim_C8 (pre suf : List LogEntry) (e0 : LogEntry)
    (hpre : pre = [] ∨ ∃ p e, pre = p ++ [e] ∧ roundOnline e = true)
    (h0 : roundOnline e0 = false)
    (hsuf : ∀ e ∈ suf, roundOnline e = false) :
    (runLoop (pre ++ e0 :: suf)).downtimeFailedHosts = roundFailedHosts e0 ∧
    (∀ now : Int, ∃ rest,
      (calculateStats (pre ++ e0 :: suf) now).DowntimeEvents =
        { StartTime := e0.Timestamp
          EndTime := none
          Duration := now - e0.Timestamp
          IsOngoing := true
          FailedHosts := roundFailedHosts e0 } :: rest) ∧
    (∀ eEnd, roundOnline eEnd = true →
      ((runLoop ((pre ++ e0 :: suf) ++ [eEnd])).downtimeEvents).getLast? =
        some { StartTime := e0.Timestamp
               EndTime := some eEnd.Timestamp
               Duration := eEnd.Timestamp - e0.Timestamp
               IsOngoing := false
               FailedHosts := roundFailedHosts e0 }) := by
  obtain ⟨b1, b2, b3, b4, b5, b6, b7⟩ := runLoop_offline_run pre e0 suf hpre h0 hsuf
  refine ⟨b4, ?_, ?_⟩
  · intro now
    have hsome : ((runLoop (pre ++ e0 :: suf)).lastCheckTime).isSome = true :=
      foldl_lastCheckTime_isSome (pre ++ e0 :: suf) initState (by simp)
    have hcond : ((runLoop (pre ++ e0 :: suf)).statusInitialized &&
        !(runLoop (pre ++ e0 :: suf)).lastStatus &&
        ((runLoop (pre ++ e0 :: suf)).lastCheckTime).isSome) = true := by
      rw [b1, b2, hsome]
      rfl
    refine ⟨((runLoop (pre ++ e0 :: suf)).downtimeEvents).reverse, ?_⟩
    rw [calculateStats_events, if_pos hcond, reverseLoop_eq_reverse, b3, b4,
        List.reverse_append, List.reverse_singleton, List.singleton_append]
  · intro eEnd hEnd
    rw [runLoop_concat, stepEntry_downtimeEvents, if_pos ⟨hEnd, b1, b2⟩, b3, b4,
        List.getLast?_concat]

theorem claim_C8_witness :
    (∀ e ∈ [downEntry 10], roundOnline e = false) ∧
    (runLoop ([] ++ downEntryAB 0 :: [downEntry 10])).downtimeFailedHosts =
      ["a", "b"] := by
  have h := claim_C8 [] [downEntry 10] (downEntryAB 0) (Or.inl rfl) (by decide)
    (by decide)
  exact ⟨by decide, by rw [h.1]; decide⟩
